import Mathlib

/-!
Verification development for the scicrypt-bgv repository.

Part 1 embeds `src/scicrypt-bigint/src/arithmetic/add.rs`: the
`UnsignedInteger` addition operations built on the GMP low-level `mpn`
primitives.  An `UnsignedInteger` stores its magnitude as a little-endian
sequence of 64-bit limbs (`value.d`, with `value.size` significant limbs;
`GMP_NUMB_BITS = 64`) together with a separately tracked `size_in_bits`
field.  Limbs of the backing buffer beyond the significant limbs are
modelled as zero, following the representation invariant stated in the
spec (words beyond the significant words of the logical value are zero); the
source never writes those limbs in the operations below.

Part 2 embeds `src/scicrypt-numbertheory/src/lib.rs`: the prime search
engine (`gen_prime`, `gen_safe_prime`, `gen_rsa_modulus`).  The `BigInteger` of that crate is backed by `rug::Integer` (arbitrary precision, correct
arithmetic), so its values are modelled directly as `Nat`.
-/

/-- Model of `UnsignedInteger` (crate scicrypt-bigint): `limbs` is the
little-endian list of the `value.size` significant 64-bit limbs, and
`size_in_bits` the separately tracked logical bit length. -/
structure UnsignedInteger where
  limbs : List Nat
  size_in_bits : Nat
deriving DecidableEq, Repr

/-- Integer value of a little-endian limb sequence (64-bit limbs). -/
def limbsVal : List Nat → Nat
  | [] => 0
  | d :: ds => d + 2 ^ 64 * limbsVal ds

/-- Every limb is a machine word, i.e. below `2^64`. -/
def UnsignedInteger.WF (a : UnsignedInteger) : Prop :=
  ∀ x ∈ a.limbs, x < 2 ^ 64

/-- GMP `mpn_add_n`-style ripple-carry addition of two equal-length limb
sequences with an incoming carry; returns the written limbs and the final
carry-out (which `mpn_add_n` returns to the caller without storing it). -/
def addWithCarry : List Nat → List Nat → Nat → List Nat × Nat
  | a :: as, b :: bs, c =>
    let s := a + b + c
    let r := addWithCarry as bs (s / 2 ^ 64)
    (s % 2 ^ 64 :: r.1, r.2)
  | _, _, c => ([], c)

/-- Pad a limb list with zero limbs up to length `m` (models exposing
buffer limbs beyond those written; per the representation invariant these
are zero). -/
def padTo (l : List Nat) (m : Nat) : List Nat :=
  l ++ List.replicate (m - l.length) 0

/-- Model of the variable-time `AddAssign<&UnsignedInteger>` implementation
(`add.rs` lines 21-45): let `n = min(self.value.size, rhs.value.size)`; if
`n = 0` return `self` unchanged; otherwise run `mpn_add_n` over the first
`n` limbs only, then set `value.size = max(self.size, rhs.size) + carry`
and `size_in_bits = max(self.size_in_bits, rhs.size_in_bits) + carry`.
The carry is not stored in, nor propagated into, any limb beyond the
overlap span, exactly as in the source. -/
def addAssign (a b : UnsignedInteger) : UnsignedInteger :=
  let n := min a.limbs.length b.limbs.length
  if n = 0 then a
  else
    let r := addWithCarry (a.limbs.take n) (b.limbs.take n) 0
    let largest := max a.limbs.length b.limbs.length
    { limbs := padTo (r.1 ++ a.limbs.drop n) (largest + r.2),
      size_in_bits := max a.size_in_bits b.size_in_bits + r.2 }

/-- GMP `mpn_sec_add_1`-style addition of a single word into a limb
sequence: propagates the incoming value through the limbs and returns the
written limbs and the carry-out (returned, not stored). -/
def secAdd1 : List Nat → Nat → List Nat × Nat
  | [], c => ([], c)
  | a :: as, c =>
    let s := a + c
    let r := secAdd1 as (s / 2 ^ 64)
    (s % 2 ^ 64 :: r.1, r.2)

/-- Model of the constant-time `AddAssign<u64>` implementation (`add.rs`
lines 56-76): run `mpn_sec_add_1` over `self.value.size` limbs, then set
`value.size += carry` and `size_in_bits += carry`.  On carry the newly
exposed top limb was never written by the primitive; it is modelled as
zero per the representation invariant. -/
def addAssignU64 (a : UnsignedInteger) (k : Nat) : UnsignedInteger :=
  let r := secAdd1 a.limbs k
  { limbs := padTo r.1 (a.limbs.length + r.2),
    size_in_bits := a.size_in_bits + r.2 }

/-- Model of `Sum<&UnsignedInteger>` (`add.rs` lines 87-92): take the first
element of the iterator (`unwrap` panics on an empty iterator, modelled as
`none`), clone it, and left-fold variable-time `+` over the rest. -/
def sumList : List UnsignedInteger → Option UnsignedInteger
  | [] => none
  | x :: xs => some (List.foldl addAssign x xs)

/-!
Part 2: the prime search engine of `src/scicrypt-numbertheory/src/lib.rs`.
The `BigInteger` of that crate wraps `rug::Integer`; values are
modelled as `Nat` and the rug-backed arithmetic (`+`, `*`, `>> 1`,
`mod_u`, `lcm`, subtraction by 1) as the corresponding `Nat` operations.
The strong probabilistic primality test `is_probably_prime` is an
external capability (rug); the engine is parameterised over it as a
function `test : Nat → Bool`.  The RNG is modelled as a stream
`s : Nat → Nat` consumed at an advancing index, and the unbounded
outer loop carries an explicit fuel (the source loop is unbounded;
`none` means the fuel ran out, which has no source counterpart).
-/

/-- Modelled from the spec: `FIRST_PRIMES`, the fixed precomputed ascending
table of small primes used by the sieve (the source file
`scicrypt-numbertheory/src/primes.rs` is not available; the spec describes
a fixed ascending table from which the first `bit_length / 3` primes are
used).  Modelled here as the first 100 primes, which supports every bit
length the development evaluates. -/
def firstPrimes : List Nat :=
  [2, 3, 5, 7, 11, 13, 17, 19, 23, 29, 31, 37, 41, 43, 47, 53, 59, 61,
   67, 71, 73, 79, 83, 89, 97, 101, 103, 107, 109, 113, 127, 131, 137,
   139, 149, 151, 157, 163, 167, 173, 179, 181, 191, 193, 197, 199, 211,
   223, 227, 229, 233, 239, 241, 251, 257, 263, 269, 271, 277, 281, 283,
   293, 307, 311, 313, 317, 331, 337, 347, 349, 353, 359, 367, 373, 379,
   383, 389, 397, 401, 409, 419, 421, 431, 433, 439, 443, 449, 457, 461,
   463, 467, 479, 487, 491, 499, 503, 509, 521, 523, 541]

/-- `u64::MAX`. -/
def U64_MAX : Nat := 2 ^ 64 - 1

/-- The sieve abort threshold of `gen_prime` (`lib.rs` line 41):
`u64::MAX - FIRST_PRIMES.last().unwrap()`, i.e. minus the largest prime of
the whole table. -/
def maxDeltaGenPrime : Nat := U64_MAX - firstPrimes.getLastD 0

/-- The sieve abort threshold of `gen_safe_prime` (`lib.rs` line 84):
`u64::MAX - FIRST_PRIMES[prime_count - 1]`, i.e. minus the largest prime
actually used by the sieve (the `K`-th table entry). -/
def maxDeltaGenSafePrime (K : Nat) : Nat := U64_MAX - firstPrimes.getD (K - 1) 0

/-- The abort threshold the spec claims for both search functions,
following its words: the numeric range of the offset type minus the
largest small prime in the precomputed table. -/
def claimedMaxDelta : Nat := U64_MAX - firstPrimes.getLastD 0

/-- One pass of the inner `for i in 1..prime_count` loop: true when some
index `i` in `1..K` has `(mods[i] + delta) % FIRST_PRIMES[i] <= forb`
(`forb = 0` models the `== 0` check of `gen_prime`, `forb = 1` the `<= 1`
check of `gen_safe_prime`). -/
def sieveHit (forb K : Nat) (mods : List Nat) (delta : Nat) : Bool :=
  ((List.range K).drop 1).any fun i =>
    (mods.getD i 0 + delta) % firstPrimes.getD i 1 ≤ forb

/-- The inner sieve loop: on a hit advance `delta` by `step` (2 for
`gen_prime`, 4 for `gen_safe_prime`) and retry, aborting to the outer loop
(`some none`, modelling the continue-to-outer jump) when the advanced offset
exceeds `maxD`; with no hit break with the current offset
(`some (some delta)`).  The explicit fuel `sf` bounds the modelled
recursion; `none` means it ran out (the source loop is bounded only by the
abort threshold). -/
def sieveLoop (forb step maxD K : Nat) (mods : List Nat) : Nat → Nat → Option (Option Nat)
  | 0, _ => none
  | sf + 1, delta =>
    if sieveHit forb K mods delta then
      if maxD < delta + step then some none
      else sieveLoop forb step maxD K mods sf (delta + step)
    else some (some delta)

/-- Candidate draw (`lib.rs` lines 29-31): `BigInteger::random(bit_length)`
followed by `set_bit(bit_length - 1)` and `set_bit(0)`.  Modelled from the
spec for the missing bigint module: `random` yields a value below
`2^bit_length` from the stream, and the caller forces the top and bottom
bits. -/
def drawCandidate (bl : Nat) (s : Nat → Nat) (i : Nat) : Nat :=
  s i % 2 ^ bl ||| 2 ^ (bl - 1) ||| 1

/-- Model of `gen_prime` (`lib.rs` lines 26-66), parameterised over the
primality test, sieve fuel `sf`, outer-loop fuel, and the random stream
with its current index.  Returns the generated value together with the
next stream index, or `none` on fuel exhaustion. -/
def genPrimeLoop (test : Nat → Bool) (sf bl : Nat) (s : Nat → Nat) :
    Nat → Nat → Option (Nat × Nat)
  | 0, _ => none
  | fuel + 1, i =>
    let c := drawCandidate bl s i
    let K := bl / 3
    let mods := (firstPrimes.take K).map fun p => c % p
    match sieveLoop 0 2 maxDeltaGenPrime K mods sf 0 with
    | none => none
    | some none => genPrimeLoop test sf bl s fuel (i + 1)
    | some (some delta) =>
      let cand := c + delta
      if test cand then some (cand, i + 1)
      else genPrimeLoop test sf bl s fuel (i + 1)

/-- Model of `gen_safe_prime` (`lib.rs` lines 70-113): as `gen_prime` but
with the `<= 1` sieve check, step 4, the `FIRST_PRIMES[prime_count - 1]`
abort threshold, and the additional strong test of the right-shifted
candidate (`&candidate >> 1`, i.e. division by 2). -/
def genSafePrimeLoop (test : Nat → Bool) (sf bl : Nat) (s : Nat → Nat) :
    Nat → Nat → Option (Nat × Nat)
  | 0, _ => none
  | fuel + 1, i =>
    let c := drawCandidate bl s i
    let K := bl / 3
    let mods := (firstPrimes.take K).map fun p => c % p
    match sieveLoop 1 4 (maxDeltaGenSafePrime K) K mods sf 0 with
    | none => none
    | some none => genSafePrimeLoop test sf bl s fuel (i + 1)
    | some (some delta) =>
      let cand := c + delta
      if test cand then
        if test (cand / 2) then some (cand, i + 1)
        else genSafePrimeLoop test sf bl s fuel (i + 1)
      else genSafePrimeLoop test sf bl s fuel (i + 1)

/-- Model of `gen_rsa_modulus` (`lib.rs` lines 118-130): two sequential
`gen_safe_prime(bit_length / 2)` calls on the same stream yielding `p`
then `q`, returning `(p * q, lcm (p - 1) (q - 1))`; no `p ≠ q` check. -/
def genRsaModulus (test : Nat → Bool) (fuel sf bl : Nat) (s : Nat → Nat) (i : Nat) :
    Option ((Nat × Nat) × Nat) :=
  match genSafePrimeLoop test sf (bl / 2) s fuel i with
  | none => none
  | some (p, j) =>
    match genSafePrimeLoop test sf (bl / 2) s fuel j with
    | none => none
    | some (q, k) => some ((p * q, Nat.lcm (p - 1) (q - 1)), k)

/-- A concrete executable strong-test instance (trial division) used to
evaluate the engine at small inputs; stands in for the probabilistic rug
test, which accepts every actual prime. -/
def primeTest (n : Nat) : Bool :=
  decide (2 ≤ n) && (List.range (n - 2)).all fun d => decide (n % (d + 2) ≠ 0)

/-!
Theorems.  Concrete evaluations of the models need a slightly larger
elaborator recursion budget (deep unary unfolding of list recursions).
-/

set_option maxRecDepth 8000

/-- Helper: the carry-out of the ripple-carry span addition is at most 1
when every limb is a machine word and the incoming carry is at most 1. -/
theorem addWithCarry_snd_le_one (a : List Nat) :
    ∀ (b : List Nat) (c : Nat), (∀ x ∈ a, x < 2 ^ 64) → (∀ x ∈ b, x < 2 ^ 64) →
      c ≤ 1 → (addWithCarry a b c).2 ≤ 1 := by
  induction a with
  | nil =>
    intro b c _ _ hc
    cases b <;> simpa [addWithCarry] using hc
  | cons x xs ih =>
    intro b c ha hb hc
    cases b with
    | nil => simpa [addWithCarry] using hc
    | cons y ys =>
      have hx : x < 2 ^ 64 := ha x (List.mem_cons_self x xs)
      have hy : y < 2 ^ 64 := hb y (List.mem_cons_self y ys)
      have hstep : (x + y + c) / 2 ^ 64 ≤ 1 := by
        have h2 : x + y + c < 2 * 2 ^ 64 := by omega
        have := Nat.div_le_div_right (c := 2 ^ 64) (Nat.le_of_lt_succ (Nat.lt_succ_of_lt h2))
        omega
      simpa [addWithCarry] using
        ih ys ((x + y + c) / 2 ^ 64)
          (fun z hz => ha z (List.mem_cons_of_mem x hz))
          (fun z hz => hb z (List.mem_cons_of_mem y hz)) hstep

/-- C1: the claim states that variable-time `add_assign` leaves in `a` the
arbitrary-precision sum of the two operands, including when `a` occupies
more machine words than `b` and the word-span addition carries out of the
overlapping span.  The code is wrong there: with `a = 2^65 - 1` (limbs
`[2^64 - 1, 1]`, 65 declared bits) and `b = 1` (limbs `[1]`, 1 bit), the
carry out of the one-limb overlap span is never propagated into the upper
limb of `a` nor stored anywhere, so the stored value is `2^64` while the
arithmetic sum is `2^65`. -/
theorem c1_var_time_add_drops_carry :
    limbsVal (addAssign ⟨[2 ^ 64 - 1, 1], 65⟩ ⟨[1], 1⟩).limbs = 2 ^ 64 ∧
    limbsVal [2 ^ 64 - 1, 1] + limbsVal [1] = 2 ^ 65 ∧
    (addAssign ⟨[2 ^ 64 - 1, 1], 65⟩ ⟨[1], 1⟩).limbs = [0, 1, 0] := by
  exact ⟨by decide, by decide, by decide⟩

/-- C2 counterexample: the claim states `size_in_bits` after variable-time
`add_assign` equals `max` of the operand bit lengths plus one exactly when
the true arithmetic sum needs more than `max` bits.  With both operands
`2^64` (limbs `[0, 1]`, 65 declared bits) the sum is `2^65`, which needs
66 bits, yet no carry leaves the two-limb span, so the code keeps
`size_in_bits = 65` (and here the stored limb value is even correct). -/
theorem c2_counterexample :
    (addAssign ⟨[0, 1], 65⟩ ⟨[0, 1], 65⟩).size_in_bits = 65 ∧
    limbsVal (addAssign ⟨[0, 1], 65⟩ ⟨[0, 1], 65⟩).limbs = 2 ^ 65 ∧
    2 ^ 65 ≤ limbsVal [0, 1] + limbsVal [0, 1] ∧
    max (65 : Nat) 65 = 65 := by
  exact ⟨by decide, by decide, by decide, by decide⟩

/-- C2 amended: after variable-time `add_assign` on operands with at least
one significant word each (machine-word limbs), `size_in_bits` equals
`max(a.size_in_bits, b.size_in_bits)` plus the carry-out (0 or 1) of the
ripple-carry addition over the overlapping word span; the increment tracks
that word-span carry, not the bit length of the true sum. -/
theorem c2_size_tracks_span_carry (a b : UnsignedInteger)
    (ha : a.WF) (hb : b.WF) (hna : a.limbs ≠ []) (hnb : b.limbs ≠ []) :
    ∃ c ≤ 1,
      c = (addWithCarry (a.limbs.take (min a.limbs.length b.limbs.length))
            (b.limbs.take (min a.limbs.length b.limbs.length)) 0).2 ∧
      (addAssign a b).size_in_bits = max a.size_in_bits b.size_in_bits + c := by
  have hn : ¬ min a.limbs.length b.limbs.length = 0 := by
    simp only [Nat.min_eq_zero_iff, List.length_eq_zero]
    tauto
  refine ⟨_, ?_, rfl, ?_⟩
  · exact addWithCarry_snd_le_one _ _ _
      (fun z hz => ha z (List.mem_of_mem_take hz))
      (fun z hz => hb z (List.mem_of_mem_take hz)) (Nat.zero_le 1)
  · simp only [addAssign, hn, if_false]

/-- Witness for C2: a concrete carry-free instance of the amended
statement. -/
theorem c2_witness :
    ∃ c ≤ 1,
      c = (addWithCarry ((⟨[5], 3⟩ : UnsignedInteger).limbs.take
              (min (⟨[5], 3⟩ : UnsignedInteger).limbs.length
                (⟨[3], 2⟩ : UnsignedInteger).limbs.length))
            ((⟨[3], 2⟩ : UnsignedInteger).limbs.take
              (min (⟨[5], 3⟩ : UnsignedInteger).limbs.length
                (⟨[3], 2⟩ : UnsignedInteger).limbs.length)) 0).2 ∧
      (addAssign ⟨[5], 3⟩ ⟨[3], 2⟩).size_in_bits =
        max (⟨[5], 3⟩ : UnsignedInteger).size_in_bits
          (⟨[3], 2⟩ : UnsignedInteger).size_in_bits + c :=
  c2_size_tracks_span_carry ⟨[5], 3⟩ ⟨[3], 2⟩
    (fun x hx => by simp only [List.mem_singleton] at hx; subst hx; decide)
    (fun x hx => by simp only [List.mem_singleton] at hx; subst hx; decide)
    (by decide) (by decide)

/-- C3: the claim states constant-time `add_assign(a, k)` leaves the
arithmetic sum in `a` and extends `size_in_bits` by one on carry out of
the word span, in particular when the carry requires a new most
significant word.  The code is wrong exactly there: `mpn_sec_add_1`
writes only the existing `value.size` limbs and returns the carry, which
is added to the limb count and to `size_in_bits` but never stored in the
newly exposed top limb.  With `a = 2^64 - 1` (one limb, 64 bits) and
`k = 1` the stored value becomes `0` (low limb zero, exposed top limb
unwritten) instead of `2^64`, while `size_in_bits` becomes 65. -/
theorem c3_const_time_add_drops_carry :
    addAssignU64 ⟨[2 ^ 64 - 1], 64⟩ 1 = ⟨[0, 0], 65⟩ ∧
    limbsVal (addAssignU64 ⟨[2 ^ 64 - 1], 64⟩ 1).limbs = 0 ∧
    limbsVal [2 ^ 64 - 1] + 1 = 2 ^ 64 := by
  exact ⟨by decide, by decide, by decide⟩

/-- C8: `Sum` over a sequence of `UnsignedInteger` fails on the empty
sequence (the `unwrap` of the first element panics, modelled `none`)
rather than returning a zero identity, and on a non-empty sequence it is
the left fold of variable-time addition seeded with a clone of the first
element. -/
theorem c8_sum_is_seeded_left_fold :
    sumList [] = none ∧
    (∀ x xs, sumList (x :: xs) = some (List.foldl addAssign x xs)) ∧
    (∀ a b c, sumList [a, b, c] = some (addAssign (addAssign a b) c)) :=
  ⟨rfl, fun _ _ => rfl, fun _ _ _ => rfl⟩

/-- Witness for C8: the fold shape at a concrete two-element sequence. -/
theorem c8_witness :
    sumList [⟨[1], 1⟩, ⟨[2], 2⟩] =
      some (List.foldl addAssign ⟨[1], 1⟩ [⟨[2], 2⟩]) :=
  c8_sum_is_seeded_left_fold.2.1 ⟨[1], 1⟩ [⟨[2], 2⟩]

/-- C10: when the operand `rhs` has zero significant words, variable-time
`add_assign` returns early (`n = min(self.value.size, 0) = 0`) and leaves
`self` entirely unchanged, both limb buffer and `size_in_bits`, whatever
`rhs.size_in_bits` is. -/
theorem c10_zero_word_rhs_noop (a b : UnsignedInteger) (hb : b.limbs = []) :
    addAssign a b = a := by
  simp [addAssign, hb]

/-- Witness for C10: a zero-word operand with a large declared bit length
leaves a one-limb receiver untouched. -/
theorem c10_witness : addAssign ⟨[5], 3⟩ ⟨[], 70⟩ = ⟨[5], 3⟩ :=
  c10_zero_word_rhs_noop ⟨[5], 3⟩ ⟨[], 70⟩ rfl

/-- C4: whatever value `gen_safe_prime` returns has passed the strong
probabilistic primality test, and so has its right shift by one bit (the
Sophie Germain cofactor); the function returns only when both tests pass.
Stated for every primality test, sieve fuel, bit length, random stream
and outer-loop fuel. -/
theorem c4_safe_prime_both_tests_pass (test : Nat → Bool) (sf bl : Nat)
    (s : Nat → Nat) :
    ∀ (fuel i p j : Nat), genSafePrimeLoop test sf bl s fuel i = some (p, j) →
      test p = true ∧ test (p / 2) = true := by
  intro fuel
  induction fuel with
  | zero => intro i p j h; simp [genSafePrimeLoop] at h
  | succ n ih =>
    intro i p j h
    simp only [genSafePrimeLoop] at h
    split at h
    · exact absurd h (by simp)
    · exact ih _ _ _ h
    · split at h
      · split at h
        · simp only [Option.some.injEq, Prod.mk.injEq] at h
          obtain ⟨hp, hj⟩ := h
          subst hp
          exact ⟨by assumption, by assumption⟩
        · exact ih _ _ _ h
      · exact ih _ _ _ h

/-- Witness for C4: with a stream constantly drawing 11, bit length 4 and
trial-division as the strong test, `gen_safe_prime` returns 11, and both
11 and 5 pass the test. -/
theorem c4_witness : primeTest 11 = true ∧ primeTest (11 / 2) = true :=
  c4_safe_prime_both_tests_pass primeTest 1 4 (fun _ => 11) 1 0 11 1 (by decide)

/-- C5: the claim states every `gen_prime(bit_length)` output `v`
satisfies `2^(bit_length-1) <= v < 2^bit_length` with top bit
`bit_length - 1` and bottom bit set, also after the sieve offset has been
added.  The sieve offset can push the candidate past `2^bit_length`: at
bit length 8 with every random draw 255, the candidate is 255
(divisible by 3), the sieve breaks at offset 2, and the strong test
accepts 257, so `gen_prime` returns 257, which is not below `2^8` and has
bit 7 clear.  This contradicts the documented contract of `gen_prime`
("the number contains bit_length bits, of which the first and the last
bit are always 1"). -/
theorem c5_gen_prime_exceeds_declared_length :
    genPrimeLoop primeTest 2 8 (fun _ => 255) 1 0 = some (257, 1) ∧
    ¬ (257 < 2 ^ 8) ∧
    Nat.testBit 257 7 = false ∧
    Nat.Prime 257 := by
  refine ⟨by decide, by decide, by decide, by decide⟩

/-- C6: `gen_rsa_modulus(bit_length)` is exactly two sequential
`gen_safe_prime(bit_length / 2)` searches on the same stream, giving `p`
then `q`, and it returns `(p * q, lcm (p - 1) (q - 1))` with no check
that `p` and `q` differ (the witness below exercises a run returning
`p = q`). -/
theorem c6_rsa_modulus_structure (test : Nat → Bool) (fuel sf bl : Nat)
    (s : Nat → Nat) (i n lam j : Nat)
    (h : genRsaModulus test fuel sf bl s i = some ((n, lam), j)) :
    ∃ p q j1, genSafePrimeLoop test sf (bl / 2) s fuel i = some (p, j1) ∧
      genSafePrimeLoop test sf (bl / 2) s fuel j1 = some (q, j) ∧
      n = p * q ∧ lam = Nat.lcm (p - 1) (q - 1) := by
  unfold genRsaModulus at h
  split at h
  · exact absurd h (by simp)
  · rename_i p j1 h1
    split at h
    · exact absurd h (by simp)
    · rename_i q k h2
      simp only [Option.some.injEq, Prod.mk.injEq] at h
      obtain ⟨⟨hn, hl⟩, hk⟩ := h
      subst hk
      exact ⟨p, q, j1, h1, h2, hn.symm, hl.symm⟩

/-- Witness for C6: with a stream constantly drawing 11 and bit length 8
both internal safe-prime searches return `p = q = 11`, and the function
returns `(121, 10) = (11 * 11, lcm 10 10)` without rejecting the equal
pair. -/
theorem c6_witness :
    genRsaModulus primeTest 1 1 8 (fun _ => 11) 0 = some ((121, 10), 2) ∧
    ∃ p q j1, genSafePrimeLoop primeTest 1 (8 / 2) (fun _ => 11) 1 0 = some (p, j1) ∧
      genSafePrimeLoop primeTest 1 (8 / 2) (fun _ => 11) 1 j1 = some (q, 2) ∧
      121 = p * q ∧ 10 = Nat.lcm (p - 1) (q - 1) :=
  ⟨by decide,
   c6_rsa_modulus_structure primeTest 1 1 8 (fun _ => 11) 0 121 10 2 (by decide)⟩

/-- C7 counterexample: the claim states both `gen_prime` and
`gen_safe_prime` abort their sieve exactly when the offset exceeds
`u64::MAX` minus the largest small prime of the table.  `gen_safe_prime`
instead uses `u64::MAX - FIRST_PRIMES[prime_count - 1]`.  Concretely, at
bit length 64 (`prime_count = 21`, so the code threshold subtracts 73,
the claimed one 541), at offset `2^64 - 105` (a sieve hit, since the
offset is 1 mod 3) a sieve bounded by the claimed threshold aborts, while
the actual `gen_safe_prime` sieve neither aborts nor breaks at that step
(it advances the offset and keeps sieving). -/
theorem c7_counterexample :
    maxDeltaGenSafePrime 21 ≠ claimedMaxDelta ∧
    sieveLoop 1 4 claimedMaxDelta 21 (List.replicate 21 0) 1 (2 ^ 64 - 105) =
      some none ∧
    sieveLoop 1 4 (maxDeltaGenSafePrime 21) 21 (List.replicate 21 0) 1
      (2 ^ 64 - 105) = none := by
  refine ⟨by decide, by decide, by decide⟩

/-- C7 amended: `gen_prime` aborts its sieve and resamples exactly on
offsets exceeding `u64::MAX` minus the largest prime of the whole table,
while `gen_safe_prime` uses `u64::MAX` minus the largest of the first
`prime_count` primes (the largest actually sieved with); in both, an
abort only happens when the advanced offset passes the respective
threshold at a sieve hit, and it is recovered locally by resampling a
fresh candidate from the stream (the outer loop recurses; no error is
surfaced). -/
theorem c7_sieve_abort_thresholds :
    maxDeltaGenPrime = claimedMaxDelta ∧
    (∀ K, maxDeltaGenSafePrime K = U64_MAX - firstPrimes.getD (K - 1) 0) ∧
    (∀ forb step maxD K mods sf delta,
      sieveLoop forb step maxD K mods sf delta = some none →
      ∃ d, delta ≤ d ∧ sieveHit forb K mods d = true ∧ maxD < d + step) ∧
    (∀ (test : Nat → Bool) sf bl (s : Nat → Nat) fuel i,
      sieveLoop 0 2 maxDeltaGenPrime (bl / 3)
          ((firstPrimes.take (bl / 3)).map fun p => drawCandidate bl s i % p)
          sf 0 = some none →
      genPrimeLoop test sf bl s (fuel + 1) i =
        genPrimeLoop test sf bl s fuel (i + 1)) ∧
    (∀ (test : Nat → Bool) sf bl (s : Nat → Nat) fuel i,
      sieveLoop 1 4 (maxDeltaGenSafePrime (bl / 3)) (bl / 3)
          ((firstPrimes.take (bl / 3)).map fun p => drawCandidate bl s i % p)
          sf 0 = some none →
      genSafePrimeLoop test sf bl s (fuel + 1) i =
        genSafePrimeLoop test sf bl s fuel (i + 1)) := by
  refine ⟨rfl, fun K => rfl, ?_, ?_, ?_⟩
  · intro forb step maxD K mods sf
    induction sf with
    | zero => intro delta h; simp [sieveLoop] at h
    | succ n ih =>
      intro delta h
      rw [sieveLoop] at h
      split at h
      · split at h
        · rename_i hhit habove
          exact ⟨delta, Nat.le_refl delta, hhit, habove⟩
        · obtain ⟨d, hd, hh, hm⟩ := ih _ h
          exact ⟨d, by omega, hh, hm⟩
      · exact absurd h (by simp)
  · intro test sf bl s fuel i h
    simp only [genPrimeLoop]
    rw [h]
  · intro test sf bl s fuel i h
    simp only [genSafePrimeLoop]
    rw [h]

/-- Witness for C7: a concrete abort of the `gen_safe_prime` sieve at
`prime_count = 21` starting from offset `2^64 - 76` yields an exceeded
offset beyond the code threshold `u64::MAX - 73`. -/
theorem c7_witness :
    ∃ d, 2 ^ 64 - 76 ≤ d ∧ sieveHit 1 21 (List.replicate 21 0) d = true ∧
      maxDeltaGenSafePrime 21 < d + 4 :=
  c7_sieve_abort_thresholds.2.2.1 1 4 (maxDeltaGenSafePrime 21) 21
    (List.replicate 21 0) 1 (2 ^ 64 - 76) (by decide)

/-- C9: `gen_prime` and `gen_safe_prime` are deterministic functions of
the random stream: two runs over streams that agree on every draw produce
identical outputs (same value and same stream position), for every
primality test, sieve fuel, bit length and outer fuel. -/
theorem c9_determinism_under_fixed_stream (test : Nat → Bool) (sf bl : Nat)
    (s1 s2 : Nat → Nat) (h : ∀ i, s1 i = s2 i) :
    ∀ fuel i,
      genPrimeLoop test sf bl s1 fuel i = genPrimeLoop test sf bl s2 fuel i ∧
      genSafePrimeLoop test sf bl s1 fuel i =
        genSafePrimeLoop test sf bl s2 fuel i := by
  intro fuel
  induction fuel with
  | zero => exact fun i => ⟨rfl, rfl⟩
  | succ n ih =>
    intro i
    have hc : drawCandidate bl s1 i = drawCandidate bl s2 i := by
      unfold drawCandidate; rw [h i]
    constructor
    · simp only [genPrimeLoop, hc]
      split
      · rfl
      · exact (ih (i + 1)).1
      · split
        · rfl
        · exact (ih (i + 1)).1
    · simp only [genSafePrimeLoop, hc]
      split
      · rfl
      · exact (ih (i + 1)).2
      · split
        · split
          · rfl
          · exact (ih (i + 1)).2
        · exact (ih (i + 1)).2

/-- Witness for C9: two syntactically distinct but pointwise equal
streams give identical searches at bit length 4. -/
theorem c9_witness :
    genPrimeLoop primeTest 1 4 (fun _ => 11) 1 0 =
      genPrimeLoop primeTest 1 4 (fun j => 11 + 0 * j) 1 0 ∧
    genSafePrimeLoop primeTest 1 4 (fun _ => 11) 1 0 =
      genSafePrimeLoop primeTest 1 4 (fun j => 11 + 0 * j) 1 0 :=
  c9_determinism_under_fixed_stream primeTest 1 4 (fun _ => 11)
    (fun j => 11 + 0 * j) (fun j => by simp) 1 0
